import Mathlib

/-!
Verification of the data-aggregation and chart-binding pipeline of the
ECS272 visualization components (Spotify tracks dashboard).

Each section shallowly embeds the data transformations of one Vue
component's `<script>` block: CSV rows become Lean structures with exact
rational (`ℚ`) measures in place of JS floating-point numbers, JS `Map`
objects become insertion-ordered association lists, and the engine's
stable `Array.prototype.sort` becomes `List.insertionSort` with the same
comparator ordering.  Statements about the correlation helper are made
over `ℝ` because its definition takes a square root.
-/

set_option maxHeartbeats 1000000

/-! ## Popularity bucketing (SankeyDiagram.vue, `getPopularityLevel`) -/

/-- Embedding of `getPopularityLevel` from `SankeyDiagram.vue`:
`if (popularity < 34) return 'Low'; if (popularity < 67) return 'Medium'; return 'High'`. -/
def getPopularityLevel (popularity : ℚ) : String :=
  if popularity < 34 then "Low"
  else if popularity < 67 then "Medium"
  else "High"

/-! ## Stable descending ranking (shared by `loadData` in the bar chart,
genre bar and treemap components: `.sort((a, b) => b.count - a.count).slice(0, limit)`).

The ECMAScript specification requires `Array.prototype.sort` to be stable;
with the comparator `(a, b) => f(b) - f(a)` the result is the unique
permutation sorted descending by `f` in which ties keep their input order.
`List.insertionSort` with the relation `f b ≤ f a` computes exactly that
permutation, and `.slice(0, limit)` is `List.take limit`. -/

/-- The comparator ordering used by the ranking step: `a` may precede `b`
when the comparator `(a, b) => f(b) - f(a)` is non-positive. -/
def rankRel {α : Type} (f : α → ℕ) : α → α → Prop := fun a b => f b ≤ f a

instance {α : Type} (f : α → ℕ) : DecidableRel (rankRel f) := fun _ _ => Nat.decLe _ _

/-- The ranking step: stable sort descending by the count metric `f`,
then truncate to the first `limit` entries. -/
def rankBy {α : Type} (f : α → ℕ) (l : List α) (limit : ℕ) : List α :=
  (l.insertionSort (rankRel f)).take limit

/-! ## Artist aggregation (`loadData` of the top-artists bar chart) -/

/-- One parsed CSV row as read by the top-artists bar chart. -/
structure ArtistRow where
  track_name : String
  artist_name : String
  track_popularity : ℚ
  artist_popularity : ℚ
  artist_followers : ℚ
deriving DecidableEq

/-- One aggregated group (`interface ArtistData`). -/
structure ArtistData where
  artist_name : String
  track_count : ℕ
  avg_popularity : ℚ
  avg_followers : ℚ
deriving DecidableEq

/-- One step of building the `groupedMap` (a JS `Map`, which preserves
insertion order): push the row onto its artist's bucket, creating the
bucket at the end of the map if the artist is new. -/
def insertGroup (m : List (String × List ArtistRow)) (d : ArtistRow) :
    List (String × List ArtistRow) :=
  if m.any (fun p => p.1 = d.artist_name) then
    m.map (fun p => if p.1 = d.artist_name then (p.1, p.2 ++ [d]) else p)
  else m ++ [(d.artist_name, [d])]

/-- `rawData.forEach` building `groupedMap`. -/
def groupByArtist (rows : List ArtistRow) : List (String × List ArtistRow) :=
  rows.foldl insertGroup []

/-- `d3.mean(...) || 0`: the mean of a non-empty list, `0` for the empty
list (where `d3.mean` yields `undefined` and `|| 0` substitutes `0`). -/
def d3mean (l : List ℚ) : ℚ :=
  if l = [] then 0 else l.sum / l.length

/-- The `groupedMap.forEach` pass producing one `ArtistData` per group. -/
def aggregateArtists (rows : List ArtistRow) : List ArtistData :=
  (groupByArtist rows).map (fun p =>
    { artist_name := p.1
      track_count := p.2.length
      avg_popularity := d3mean (p.2.map (·.track_popularity))
      avg_followers := d3mean (p.2.map (·.artist_followers)) })

/-- The whole `loadData` aggregation pipeline of the top-artists bar
chart, with the truncation limit as a parameter (the source fixes it to
`15`; the genre and treemap variants fix it to `25` and `40`). -/
def loadDataPipeline (rows : List ArtistRow) (limit : ℕ) : List ArtistData :=
  rankBy (·.track_count) (aggregateArtists rows) limit

section RankLemmas

variable {α : Type} (f : α → ℕ)

lemma rankRel_total : IsTotal α (rankRel f) := ⟨fun a b => Nat.le_total (f b) (f a)⟩

lemma rankRel_trans : IsTrans α (rankRel f) := ⟨fun _ _ _ h1 h2 => Nat.le_trans h2 h1⟩

/-- Inserting an element whose metric equals `c` leaves it in front of
every stored element with metric `c`: the skipped prefix has strictly
larger metric. -/
lemma filter_orderedInsert_eq (a : α) (c : ℕ) (ha : f a = c) :
    ∀ l : List α, (l.orderedInsert (rankRel f) a).filter (fun d => f d == c) =
                    a :: l.filter (fun d => f d == c) := by
  intro l
  induction l with
  | nil => simp [List.orderedInsert, List.filter, ha]
  | cons b l ih =>
    by_cases h : rankRel f a b
    · rw [List.orderedInsert, if_pos h]
      simp [List.filter, ha]
    · rw [List.orderedInsert, if_neg h]
      have hb : ¬ (f b == c) = true := by
        simp only [beq_iff_eq]
        intro hbc
        exact h (by simp [rankRel, hbc, ha])
      simp only [List.filter, hb]
      simpa using ih

/-- Inserting an element whose metric differs from `c` does not disturb
the `c`-metric subsequence. -/
lemma filter_orderedInsert_ne (a : α) (c : ℕ) (ha : f a ≠ c) :
    ∀ l : List α, (l.orderedInsert (rankRel f) a).filter (fun d => f d == c) =
                    l.filter (fun d => f d == c) := by
  intro l
  have haf : ¬ (f a == c) = true := by simpa using ha
  induction l with
  | nil => simp [List.orderedInsert, List.filter, haf]
  | cons b l ih =>
    by_cases h : rankRel f a b
    · rw [List.orderedInsert, if_pos h]
      simp only [List.filter, haf]
    · rw [List.orderedInsert, if_neg h]
      simp only [List.filter]
      cases hb : (f b == c) <;> simp [ih]

/-- Stability of the sort: for every metric value `c`, the elements whose
metric is `c` appear in the output in their input order. -/
lemma filter_insertionSort (c : ℕ) (l : List α) :
    (l.insertionSort (rankRel f)).filter (fun d => f d == c) =
      l.filter (fun d => f d == c) := by
  induction l with
  | nil => rfl
  | cons a l ih =>
    rw [List.insertionSort]
    by_cases ha : f a = c
    · rw [filter_orderedInsert_eq f a c ha, ih]
      simp [List.filter, ha]
    · rw [filter_orderedInsert_ne f a c ha, ih]
      have : ¬ (f a == c) = true := by simpa using ha
      simp [List.filter, this]

end RankLemmas

/-- C1: the bucketing function maps `v < 34` to `"Low"`, `34 ≤ v < 67` to
`"Medium"` and `67 ≤ v` to `"High"`; in particular `34` is `"Medium"`,
`67` is `"High"` and `33.999` is `"Low"`. -/
theorem getPopularityLevel_bands (v : ℚ) :
    (getPopularityLevel v = "Low" ↔ v < 34) ∧
    (getPopularityLevel v = "Medium" ↔ 34 ≤ v ∧ v < 67) ∧
    (getPopularityLevel v = "High" ↔ 67 ≤ v) ∧
    getPopularityLevel 34 = "Medium" ∧
    getPopularityLevel 67 = "High" ∧
    getPopularityLevel 33.999 = "Low" := by
  have h1 : getPopularityLevel 34 = "Medium" := by norm_num [getPopularityLevel]
  have h2 : getPopularityLevel 67 = "High" := by norm_num [getPopularityLevel]
  have h3 : getPopularityLevel 33.999 = "Low" := by norm_num [getPopularityLevel]
  refine ⟨?_, ?_, ?_, h1, h2, h3⟩ <;>
    (unfold getPopularityLevel; split_ifs with ha hb <;> simp_all <;> linarith)

/-- C2: the ranking step is sorted descending by the count metric, stable
(ties keep their relative input order: every equal-count subsequence of
the sorted sequence equals the corresponding input subsequence), truncates
to the first `n` entries, and a limit at least the number of groups
returns the whole sequence (a permutation of the input) rather than
failing. -/
theorem rankBy_spec {α : Type} (f : α → ℕ) (l : List α) (n : ℕ) :
    (rankBy f l n).Pairwise (fun a b => f b ≤ f a) ∧
    (∀ c : ℕ, (l.insertionSort (rankRel f)).filter (fun d => f d == c) =
        l.filter (fun d => f d == c)) ∧
    (rankBy f l n).length = min n l.length ∧
    (l.length ≤ n → List.Perm (rankBy f l n) l) := by
  haveI := rankRel_total f
  haveI := rankRel_trans f
  have hsorted : (l.insertionSort (rankRel f)).Pairwise (rankRel f) :=
    List.sorted_insertionSort (rankRel f) l
  refine ⟨hsorted.sublist (List.take_sublist _ _), fun c => filter_insertionSort f c l, ?_, ?_⟩
  · rw [rankBy, List.length_take, List.length_insertionSort]
  · intro hle
    rw [rankBy, List.take_of_length_le (by rw [List.length_insertionSort]; exact hle)]
    exact List.perm_insertionSort _ l

/-- Witness for C2: at a two-group input with limit 15 the whole sequence
comes back. -/
theorem rankBy_spec_witness :
    ([⟨"B", 1, 90, 0⟩, ⟨"A", 3, 20, 0⟩] : List ArtistData).length ≤ 15 ∧
      List.Perm
        (rankBy (fun d : ArtistData => d.track_count) ([⟨"B", 1, 90, 0⟩, ⟨"A", 3, 20, 0⟩] : List ArtistData) 15)
        [⟨"B", 1, 90, 0⟩, ⟨"A", 3, 20, 0⟩] :=
  ⟨by decide,
    (rankBy_spec (fun d : ArtistData => d.track_count) [⟨"B", 1, 90, 0⟩, ⟨"A", 3, 20, 0⟩] 15).2.2.2 (by decide)⟩

/-- C7: end-to-end — three records for artist `"A"` with track
popularities 10, 20, 30 and one record for `"B"` with 90; aggregating and
ranking by count with limit 2 yields `[{A, count 3, mean 20},
{B, count 1, mean 90}]` in that order, and each mean is the group's metric
sum divided by its count. -/
theorem loadDataPipeline_scenario :
    loadDataPipeline
      [⟨"t1", "A", 10, 50, 7⟩, ⟨"t2", "A", 20, 50, 7⟩, ⟨"t3", "A", 30, 50, 7⟩,
       ⟨"t4", "B", 90, 60, 9⟩] 2 =
      [⟨"A", 3, 20, 7⟩, ⟨"B", 1, 90, 9⟩] ∧
    (20 : ℚ) = (10 + 20 + 30) / 3 ∧ (90 : ℚ) = 90 / 1 := by
  refine ⟨?_, by norm_num, by norm_num⟩
  norm_num [loadDataPipeline, aggregateArtists, groupByArtist, insertGroup, d3mean,
    rankBy, rankRel, List.insertionSort, List.orderedInsert]
  simp

/-! ## Genre normalization and aggregation (`loadData` of the genre bar chart)

The JS pipeline is character-level: four global `replace` calls
(`/\[/g → ''`, `/\]/g → ''`, `/'/g → ''`, `/\//g → ','`), a split on `,`,
a `trim` of every token, and a filter keeping non-blank tokens that are
not the literal `"[]"`.  It is embedded over `List Char`. -/

/-- One parsed CSV row as read by the genre bar chart. -/
structure GenreRow where
  artist_genres : String
  track_popularity : ℚ
deriving DecidableEq

/-- The whitespace characters removed by `String.prototype.trim`
(restricted to the ASCII whitespace that can occur in the data). -/
def isWhitespaceChar (c : Char) : Bool :=
  c = ' ' ∨ c = Char.ofNat 9 ∨ c = Char.ofNat 10 ∨ c = Char.ofNat 13

/-- `String.prototype.trim` on a character list. -/
def trimChars (l : List Char) : List Char :=
  ((l.dropWhile isWhitespaceChar).reverse.dropWhile isWhitespaceChar).reverse

/-- The four global `replace` calls: every `[`, `]` and `'` is dropped and
every `/` becomes `,`. -/
def normalizeGenreChars (l : List Char) : List Char :=
  l.filterMap (fun c =>
    if c = '[' ∨ c = ']' ∨ c = Char.ofNat 39 then none
    else if c = '/' then some ',' else some c)

/-- `String.prototype.split(',')` on a character list. -/
def splitOnComma : List Char → List (List Char)
  | [] => [[]]
  | c :: cs =>
    match splitOnComma cs with
    | [] => [[]]
    | t :: ts => if c = ',' then [] :: t :: ts else (c :: t) :: ts

/-- The genre-token normalization of `loadData`: replace punctuation,
split on commas, trim each token, keep non-empty tokens other than the
(unreachable) literal `"[]"`. -/
def parseGenres (s : String) : List String :=
  (((splitOnComma (normalizeGenreChars s.data)).map trimChars).filter
      (fun t => 0 < t.length ∧ t ≠ ('[' :: [']']))).map (fun t => String.mk t)

/-- One `genreMap` update (a JS `Map`, insertion-ordered): bump the
genre's count and push the row's track popularity, appending a fresh
entry for a new genre. -/
def bumpGenre (m : List (String × ℕ × List ℚ)) (genre : String) (pop : ℚ) :
    List (String × ℕ × List ℚ) :=
  if m.any (fun p => p.1 = genre) then
    m.map (fun p => if p.1 = genre then (p.1, p.2.1 + 1, p.2.2 ++ [pop]) else p)
  else m ++ [(genre, 1, [pop])]

/-- Processing one CSV row of the genre bar chart: rows with a blank
genre field are skipped, every parsed genre token of the others bumps its
group. -/
def processGenreRow (m : List (String × ℕ × List ℚ)) (d : GenreRow) :
    List (String × ℕ × List ℚ) :=
  if trimChars d.artist_genres.data = [] then m
  else (parseGenres d.artist_genres).foldl (fun m g => bumpGenre m g d.track_popularity) m

/-- The `rawData.forEach` pass that builds `genreMap`. -/
def aggregateGenres (rows : List GenreRow) : List (String × ℕ × List ℚ) :=
  rows.foldl processGenreRow []

/-- Total of the per-group counts of a genre map. -/
def sumCounts (m : List (String × ℕ × List ℚ)) : ℕ :=
  (m.map (fun p => p.2.1)).sum

/-- The count a genre map holds under one key. -/
def countOf (m : List (String × ℕ × List ℚ)) (g : String) : ℕ :=
  ((m.filter (fun p => p.1 = g)).map (fun p => p.2.1)).sum

/-- The rows the genre `loadData` admits into aggregation (its only drop
rule is the blank-genre guard; every `ℚ` measure is finite). -/
def validGenreRows (rows : List GenreRow) : List GenreRow :=
  rows.filter (fun d => ¬ trimChars d.artist_genres.data = [])

section GenreLemmas

/-- Keys of the genre map are unchanged by the bump-existing branch. -/
lemma keys_map_bump (m : List (String × ℕ × List ℚ)) (g : String) (q : ℚ) :
    (m.map (fun p => if p.1 = g then (p.1, p.2.1 + 1, p.2.2 ++ [q]) else p)).map
        (fun p => p.1) =
      m.map (fun p => p.1) := by
  induction m with
  | nil => rfl
  | cons p rest ih =>
    by_cases hp : p.1 = g <;> simp [hp, ih]

/-- Bumping preserves distinctness of the stored genre keys. -/
lemma keys_bumpGenre_nodup (m : List (String × ℕ × List ℚ)) (g : String) (q : ℚ)
    (h : (m.map (fun p => p.1)).Nodup) :
    ((bumpGenre m g q).map (fun p => p.1)).Nodup := by
  unfold bumpGenre
  by_cases hm : m.any (fun p => p.1 = g)
  · rw [if_pos hm, keys_map_bump]
    exact h
  · rw [if_neg hm]
    have hg : g ∉ m.map (fun p => p.1) := by
      simp only [List.any_eq_true, decide_eq_true_eq] at hm
      simp only [List.mem_map]
      rintro ⟨p, hp, rfl⟩
      exact hm ⟨p, hp, rfl⟩
    simp [List.nodup_append, h, hg]

/-- Bumping never decreases the stored total count. -/
lemma sumCounts_le_map_bump (m : List (String × ℕ × List ℚ)) (g : String) (q : ℚ) :
    sumCounts m ≤
      sumCounts (m.map (fun p => if p.1 = g then (p.1, p.2.1 + 1, p.2.2 ++ [q]) else p)) := by
  induction m with
  | nil => exact le_refl _
  | cons p rest ih =>
    by_cases hp : p.1 = g <;> simp [sumCounts, hp] at ih ⊢ <;> omega

/-- Bumping a key that is present increases the stored total count. -/
lemma sumCounts_map_bump_of_mem (m : List (String × ℕ × List ℚ)) (g : String) (q : ℚ)
    (h : ∃ p ∈ m, p.1 = g) :
    sumCounts m + 1 ≤
      sumCounts (m.map (fun p => if p.1 = g then (p.1, p.2.1 + 1, p.2.2 ++ [q]) else p)) := by
  induction m with
  | nil => exact absurd h (by simp)
  | cons p rest ih =>
    rcases h with ⟨p', hp', hpg⟩
    rcases List.mem_cons.mp hp' with rfl | hmem
    · have hle := sumCounts_le_map_bump rest g q
      simp [sumCounts, hpg] at hle ⊢
      omega
    · by_cases hp : p.1 = g
      · have hle := sumCounts_le_map_bump rest g q
        simp [sumCounts, hp] at hle ⊢
        omega
      · have := ih ⟨p', hmem, hpg⟩
        simp [sumCounts, hp] at this ⊢
        omega

/-- Every bump adds at least one to the stored total count. -/
lemma sumCounts_bumpGenre (m : List (String × ℕ × List ℚ)) (g : String) (q : ℚ) :
    sumCounts m + 1 ≤ sumCounts (bumpGenre m g q) := by
  unfold bumpGenre
  by_cases hm : m.any (fun p => p.1 = g)
  · rw [if_pos hm]
    apply sumCounts_map_bump_of_mem
    simpa using hm
  · rw [if_neg hm]
    simp [sumCounts]

/-- Folding bumps over a token list never decreases the total count. -/
lemma sumCounts_le_foldl_bump (gs : List String) (q : ℚ) :
    ∀ m, sumCounts m ≤ sumCounts (gs.foldl (fun m g => bumpGenre m g q) m) := by
  induction gs with
  | nil => intro m; exact le_refl _
  | cons g gs ih =>
    intro m
    calc sumCounts m ≤ sumCounts (bumpGenre m g q) :=
          Nat.le_of_succ_le (sumCounts_bumpGenre m g q)
    _ ≤ _ := ih (bumpGenre m g q)

end GenreLemmas

section BlankGenreLemmas

/-- A field whose trim is empty consists of whitespace only. -/
lemma all_ws_of_trim_nil (l : List Char) (h : trimChars l = []) :
    ∀ c ∈ l, isWhitespaceChar c = true := by
  unfold trimChars at h
  rw [List.reverse_eq_nil_iff, List.dropWhile_eq_nil_iff] at h
  have hdrop : ∀ c ∈ l.dropWhile isWhitespaceChar, isWhitespaceChar c = true := by
    intro c hc
    exact h c (by simpa using hc)
  intro c hc
  rw [← List.takeWhile_append_dropWhile isWhitespaceChar l, List.mem_append] at hc
  rcases hc with hc | hc
  · exact List.mem_takeWhile_imp hc
  · exact hdrop c hc

/-- Whitespace characters pass through the punctuation normalization. -/
lemma normalize_ws_step (c : Char) (h : isWhitespaceChar c = true) :
    (if c = '[' ∨ c = ']' ∨ c = Char.ofNat 39 then none
     else if c = '/' then some ',' else some c) = some c := by
  simp only [isWhitespaceChar, decide_eq_true_eq] at h
  rcases h with rfl | rfl | rfl | rfl <;> decide

/-- A whitespace-only field is unchanged by normalization. -/
lemma normalize_all_ws (l : List Char) (h : ∀ c ∈ l, isWhitespaceChar c = true) :
    normalizeGenreChars l = l := by
  induction l with
  | nil => rfl
  | cons c cs ih =>
    unfold normalizeGenreChars
    rw [List.filterMap_cons, normalize_ws_step c (h c (List.mem_cons_self c cs))]
    have := ih (fun c hc => h c (List.mem_cons_of_mem _ hc))
    unfold normalizeGenreChars at this
    rw [this]

/-- Splitting a comma-free list yields the single token. -/
lemma splitOnComma_no_comma (l : List Char) (h : ∀ c ∈ l, ¬ c = ',') :
    splitOnComma l = [l] := by
  induction l with
  | nil => rfl
  | cons c cs ih =>
    rw [splitOnComma, ih (fun c hc => h c (List.mem_cons_of_mem _ hc))]
    simp [h c (List.mem_cons_self c cs)]

/-- Trimming a whitespace-only list gives the empty list. -/
lemma trim_all_ws (l : List Char) (h : ∀ c ∈ l, isWhitespaceChar c = true) :
    trimChars l = [] := by
  unfold trimChars
  rw [List.dropWhile_eq_nil_iff.mpr h]
  rfl

/-- A row skipped by the blank-genre guard would not have produced any
genre token anyway. -/
lemma parseGenres_of_trim_nil (s : String) (h : trimChars s.data = []) :
    parseGenres s = [] := by
  have hws := all_ws_of_trim_nil s.data h
  have hnorm := normalize_all_ws s.data hws
  have hnc : ∀ c ∈ s.data, ¬ c = ',' := by
    intro c hc hcomma
    have := hws c hc
    rw [hcomma] at this
    simp [isWhitespaceChar] at this
  unfold parseGenres
  rw [hnorm, splitOnComma_no_comma s.data hnc]
  simp [trim_all_ws s.data hws]

end BlankGenreLemmas

section GenreCountLemmas

/-- Each processed row adds at least one to the total count when its
genre field parses to at least one token. -/
lemma sumCounts_processGenreRow (m : List (String × ℕ × List ℚ)) (d : GenreRow) :
    sumCounts m + (if parseGenres d.artist_genres = [] then 0 else 1) ≤
      sumCounts (processGenreRow m d) := by
  unfold processGenreRow
  by_cases hblank : trimChars d.artist_genres.data = []
  · rw [if_pos hblank, parseGenres_of_trim_nil d.artist_genres hblank]
    simp
  · rw [if_neg hblank]
    cases hp : parseGenres d.artist_genres with
    | nil => simp
    | cons g gs =>
      rw [if_neg (List.cons_ne_nil g gs), List.foldl_cons]
      calc sumCounts m + 1 ≤ sumCounts (bumpGenre m g d.track_popularity) :=
            sumCounts_bumpGenre m g d.track_popularity
      _ ≤ _ := sumCounts_le_foldl_bump gs d.track_popularity _

/-- Generalized fold form of the C3 lower bound. -/
lemma sumCounts_foldl_rows (rows : List GenreRow) :
    ∀ m, sumCounts m + (rows.filter (fun d => ¬ parseGenres d.artist_genres = [])).length ≤
      sumCounts (rows.foldl processGenreRow m) := by
  induction rows with
  | nil => intro m; simp
  | cons d rest ih =>
    intro m
    rw [List.foldl_cons]
    by_cases hd : parseGenres d.artist_genres = []
    · have h1 : sumCounts m ≤ sumCounts (processGenreRow m d) := by
        have := sumCounts_processGenreRow m d
        rw [if_pos hd] at this
        omega
      have h2 := ih (processGenreRow m d)
      simp only [List.filter_cons]
      have : ¬ (decide ¬ parseGenres d.artist_genres = []) = true := by simp [hd]
      rw [if_neg this]
      omega
    · have h1 : sumCounts m + 1 ≤ sumCounts (processGenreRow m d) := by
        have := sumCounts_processGenreRow m d
        rw [if_neg hd] at this
        omega
      have h2 := ih (processGenreRow m d)
      simp only [List.filter_cons]
      have : (decide ¬ parseGenres d.artist_genres = []) = true := by simp [hd]
      rw [if_pos this]
      simp only [List.length_cons]
      omega

end GenreCountLemmas

/-- C3 counterexample: with one record parsing to the key `"pop"` and one
record whose raw genre field is the degenerate string `"[]"` — admitted by
the guard but producing no key — the per-group counts total 1 while 2
valid records entered aggregation. -/
theorem sumCounts_lt_validRows_counterexample :
    sumCounts (aggregateGenres [⟨"['pop']", 50⟩, ⟨"[]", 50⟩]) = 1 ∧
    (validGenreRows [⟨"['pop']", 50⟩, ⟨"[]", 50⟩]).length = 2 ∧
    ¬ (validGenreRows [⟨"['pop']", 50⟩, ⟨"[]", 50⟩]).length ≤
        sumCounts (aggregateGenres [⟨"['pop']", 50⟩, ⟨"[]", 50⟩]) := by
  refine ⟨by decide, by decide, by decide⟩

/-- C3 (amended): for every input, the per-group counts of the genre
aggregation total at least the number of records whose genre field
normalizes to at least one key (each such record contributes to at least
one group; multi-valued fields to several). -/
theorem sumCounts_ge_contributing_rows (rows : List GenreRow) :
    (rows.filter (fun d => ¬ parseGenres d.artist_genres = [])).length ≤
      sumCounts (aggregateGenres rows) := by
  have := sumCounts_foldl_rows rows []
  simpa [aggregateGenres, sumCounts] using this

section CountOfLemmas

/-- Bumping key `g` adds to the `g`-total once per stored entry with key
`g`. -/
lemma countOf_map_bump (m : List (String × ℕ × List ℚ)) (g : String) (q : ℚ) :
    countOf (m.map (fun p => if p.1 = g then (p.1, p.2.1 + 1, p.2.2 ++ [q]) else p)) g =
      countOf m g + m.countP (fun p => p.1 = g) := by
  induction m with
  | nil => rfl
  | cons p rest ih =>
    by_cases hp : p.1 = g <;>
      simp [countOf, List.countP_cons, hp, List.filter_cons] at ih ⊢ <;> omega

/-- Bumping key `g` leaves every other key's total unchanged. -/
lemma countOf_map_bump_ne (m : List (String × ℕ × List ℚ)) (g g' : String) (q : ℚ)
    (h : ¬ g = g') :
    countOf (m.map (fun p => if p.1 = g' then (p.1, p.2.1 + 1, p.2.2 ++ [q]) else p)) g =
      countOf m g := by
  have hgg : ¬ g' = g := fun hc => h hc.symm
  induction m with
  | nil => rfl
  | cons p rest ih =>
    by_cases hp : p.1 = g'
    · simp [countOf, List.filter_cons, hp, hgg] at ih ⊢
      exact ih
    · by_cases hg : p.1 = g <;> simp [countOf, List.filter_cons, hp, hg, h] at ih ⊢ <;> omega

/-- With distinct keys, at most one stored entry has key `g`. -/
lemma countP_key_le_one (m : List (String × ℕ × List ℚ)) (g : String)
    (h : (m.map (fun p => p.1)).Nodup) :
    m.countP (fun p => p.1 = g) ≤ 1 := by
  induction m with
  | nil => simp
  | cons p rest ih =>
    simp only [List.map_cons, List.nodup_cons] at h
    by_cases hp : p.1 = g
    · have hzero : rest.countP (fun p => p.1 = g) = 0 := by
        rw [List.countP_eq_zero]
        intro p' hp'
        simp only [decide_eq_true_eq]
        intro hpg
        exact h.1 (by rw [← hp, ← hpg] at *; exact List.mem_map_of_mem (fun p => p.1) hp')
      rw [List.countP_cons]
      simp [hp, hzero]
    · rw [List.countP_cons, decide_eq_false hp]
      simpa using ih h.2

/-- Bumping a key of a distinct-key map increments exactly that key's
total by one. -/
lemma countOf_bumpGenre_self (m : List (String × ℕ × List ℚ)) (g : String) (q : ℚ)
    (h : (m.map (fun p => p.1)).Nodup) :
    countOf (bumpGenre m g q) g = countOf m g + 1 := by
  unfold bumpGenre
  by_cases hm : m.any (fun p => p.1 = g)
  · rw [if_pos hm, countOf_map_bump]
    have hge : 1 ≤ m.countP (fun p => p.1 = g) := by
      simp only [List.any_eq_true, decide_eq_true_eq] at hm
      rcases hm with ⟨p, hp, hpg⟩
      exact List.countP_pos_iff.mpr ⟨p, hp, by simpa using hpg⟩
    have hle := countP_key_le_one m g h
    omega
  · rw [if_neg hm]
    simp [countOf, List.filter_append]

/-- Bumping one key leaves the totals of the other keys unchanged. -/
lemma countOf_bumpGenre_ne (m : List (String × ℕ × List ℚ)) (g g' : String) (q : ℚ)
    (h : ¬ g = g') :
    countOf (bumpGenre m g' q) g = countOf m g := by
  unfold bumpGenre
  by_cases hm : m.any (fun p => p.1 = g')
  · rw [if_pos hm, countOf_map_bump_ne m g g' q h]
  · rw [if_neg hm]
    simp [countOf, List.filter_append, show ¬ g' = g from fun hc => h hc.symm]

/-- The keys of the aggregated genre map are distinct. -/
lemma keys_aggregateGenres_nodup (rows : List GenreRow) :
    ((aggregateGenres rows).map (fun p => p.1)).Nodup := by
  suffices h : ∀ (rows : List GenreRow) (m : List (String × ℕ × List ℚ)),
      (m.map (fun p => p.1)).Nodup →
      ((rows.foldl processGenreRow m).map (fun p => p.1)).Nodup by
    exact h rows [] (by simp)
  intro rows
  induction rows with
  | nil => intro m hm; simpa using hm
  | cons d rest ih =>
    intro m hm
    rw [List.foldl_cons]
    apply ih
    unfold processGenreRow
    by_cases hblank : trimChars d.artist_genres.data = []
    · rw [if_pos hblank]; exact hm
    · rw [if_neg hblank]
      have : ∀ (gs : List String) (m : List (String × ℕ × List ℚ)), (m.map (fun p => p.1)).Nodup →
          ((gs.foldl (fun m g => bumpGenre m g d.track_popularity) m).map
              (fun p => p.1)).Nodup := by
        intro gs
        induction gs with
        | nil => intro m hm; exact hm
        | cons g gs ihg =>
          intro m hm
          rw [List.foldl_cons]
          exact ihg _ (keys_bumpGenre_nodup m g d.track_popularity hm)
      exact this _ m hm

end CountOfLemmas

/-- C6: the raw genre field `"['pop' / 'rock']"` normalizes to exactly the
keys `["pop", "rock"]`, and appending one record with that field to any
input increments the aggregated counts of the `"pop"` and `"rock"` groups
by exactly one each. -/
theorem parseGenres_scenario (rows : List GenreRow) (q : ℚ) :
    parseGenres "['pop' / 'rock']" = ["pop", "rock"] ∧
    countOf (aggregateGenres (rows ++ [⟨"['pop' / 'rock']", q⟩])) "pop" =
      countOf (aggregateGenres rows) "pop" + 1 ∧
    countOf (aggregateGenres (rows ++ [⟨"['pop' / 'rock']", q⟩])) "rock" =
      countOf (aggregateGenres rows) "rock" + 1 := by
  have hparse : parseGenres "['pop' / 'rock']" = ["pop", "rock"] := by decide
  have hstep : aggregateGenres (rows ++ [⟨"['pop' / 'rock']", q⟩]) =
      bumpGenre (bumpGenre (aggregateGenres rows) "pop" q) "rock" q := by
    unfold aggregateGenres
    rw [List.foldl_append, List.foldl_cons, List.foldl_nil]
    rw [show ∀ m, processGenreRow m (⟨"['pop' / 'rock']", q⟩ : GenreRow) =
          bumpGenre (bumpGenre m "pop" q) "rock" q from ?_]
    intro m
    unfold processGenreRow
    rw [if_neg (show ¬ trimChars ("['pop' / 'rock']" : String).data = [] by decide)]
    show List.foldl _ _ (parseGenres "['pop' / 'rock']") = _
    rw [hparse]
    rfl
  have hnodup := keys_aggregateGenres_nodup rows
  have hnodup2 := keys_bumpGenre_nodup (aggregateGenres rows) "pop" q hnodup
  refine ⟨hparse, ?_, ?_⟩
  · rw [hstep, countOf_bumpGenre_ne _ "pop" "rock" q (by decide),
      countOf_bumpGenre_self _ "pop" q hnodup]
  · rw [hstep, countOf_bumpGenre_self _ "rock" q hnodup2,
      countOf_bumpGenre_ne _ "rock" "pop" q (by decide)]

/-! ## Pearson correlation (SparklinesSummary.vue, `calculateCorrelation`)

The source computes, over JS numbers,
`meanX = x.reduce((a,b) => a+b) / n`,
`cov = x.reduce((sum, xi, i) => sum + (xi-meanX)*(y[i]-meanY), 0) / n`,
`stdX = sqrt(x.reduce((sum, xi) => sum + (xi-meanX)^2, 0) / n)` and
returns `cov / (stdX * stdY)`.  The embedding idealizes JS numbers as `ℝ`
(indexing `y[i]` with default `0` past the end, as `getD`).  Whenever a
standard deviation vanishes the covariance vanishes too, so the source's
division always ends in `0/0 = NaN` in that case; the embedding returns
`none` for that sentinel and `some` of the quotient otherwise — in
particular the function is total and never raises. -/

/-- `x.reduce((a, b) => a + b) / n`. -/
noncomputable def seriesMean (x : List ℝ) : ℝ :=
  (∑ i ∈ Finset.range x.length, x.getD i 0) / x.length

/-- The population covariance term of `calculateCorrelation` (divide by
`n`, not `n - 1`). -/
noncomputable def seriesCov (x y : List ℝ) : ℝ :=
  (∑ i ∈ Finset.range x.length,
      (x.getD i 0 - seriesMean x) * (y.getD i 0 - seriesMean y)) / x.length

/-- The population standard deviation of `calculateCorrelation` (divide
by `n`, not `n - 1`). -/
noncomputable def seriesStd (x : List ℝ) : ℝ :=
  Real.sqrt ((∑ i ∈ Finset.range x.length, (x.getD i 0 - seriesMean x) ^ 2) / x.length)

open Classical in
/-- `calculateCorrelation`: `cov / (stdX * stdY)`, with `none` standing
for the NaN sentinel the source's `0 / 0` produces when a standard
deviation is zero. -/
noncomputable def calculateCorrelation (x y : List ℝ) : Option ℝ :=
  if seriesStd x * seriesStd y = 0 then none
  else some (seriesCov x y / (seriesStd x * seriesStd y))

/-- A constant series: every entry equals the first. -/
def constantSeries (x : List ℝ) : Prop :=
  ∀ i < x.length, x.getD i 0 = x.getD 0 0

section CorrelationLemmas

/-- The mean of a constant series is its constant value. -/
lemma seriesMean_of_constant (x : List ℝ) (hn : 0 < x.length) (hx : constantSeries x) :
    seriesMean x = x.getD 0 0 := by
  unfold seriesMean
  rw [Finset.sum_congr rfl (fun i hi => hx i (Finset.mem_range.mp hi))]
  rw [Finset.sum_const, Finset.card_range, nsmul_eq_mul]
  field_simp

/-- A constant series has zero standard deviation. -/
lemma seriesStd_of_constant (x : List ℝ) (hn : 0 < x.length) (hx : constantSeries x) :
    seriesStd x = 0 := by
  unfold seriesStd
  have hzero : ∀ i ∈ Finset.range x.length, (x.getD i 0 - seriesMean x) ^ 2 = 0 := by
    intro i hi
    rw [seriesMean_of_constant x hn hx, hx i (Finset.mem_range.mp hi)]
    ring
  rw [Finset.sum_congr rfl hzero, Finset.sum_const, smul_zero, zero_div, Real.sqrt_zero]

/-- A non-constant series has positive sum of squared deviations. -/
lemma sumsq_pos_of_not_constant (x : List ℝ) (hn : 0 < x.length)
    (hx : ¬ constantSeries x) :
    0 < ∑ i ∈ Finset.range x.length, (x.getD i 0 - seriesMean x) ^ 2 := by
  have hnn : (0 : ℝ) ≤ ∑ i ∈ Finset.range x.length, (x.getD i 0 - seriesMean x) ^ 2 :=
    Finset.sum_nonneg fun i _ => sq_nonneg _
  rcases lt_or_eq_of_le hnn with h | h
  · exact h
  · exfalso
    apply hx
    have hall := (Finset.sum_eq_zero_iff_of_nonneg fun i _ => sq_nonneg
      (x.getD i 0 - seriesMean x)).mp h.symm
    have hmean : ∀ i < x.length, x.getD i 0 = seriesMean x := by
      intro i hi
      have := hall i (Finset.mem_range.mpr hi)
      have := pow_eq_zero_iff (n := 2) (by norm_num) |>.mp this
      linarith [sub_eq_zero.mp this]
    intro i hi
    rw [hmean i hi, hmean 0 hn]

/-- Covariance is symmetric in its two equal-length arguments. -/
lemma seriesCov_comm (x y : List ℝ) (hlen : y.length = x.length) :
    seriesCov x y = seriesCov y x := by
  unfold seriesCov
  rw [hlen]
  exact congrArg (· / (x.length : ℝ)) (Finset.sum_congr rfl fun i _ => mul_comm _ _)

end CorrelationLemmas

/-- C4: on equal-length series the correlation is symmetric, and when
neither series is constant it produces a value in `[-1, 1]`; covariance
and variance are the population (divide-by-`n`) forms by definition of
`seriesCov` and `seriesStd`. -/
theorem calculateCorrelation_spec (x y : List ℝ)
    (hlen : y.length = x.length) (hn : 0 < x.length) :
    calculateCorrelation x y = calculateCorrelation y x ∧
    (¬ constantSeries x → ¬ constantSeries y →
      ∃ c, calculateCorrelation x y = some c ∧ -1 ≤ c ∧ c ≤ 1) := by
  have hcov := seriesCov_comm x y hlen
  constructor
  · by_cases h : seriesStd x * seriesStd y = 0
    · have h' : seriesStd y * seriesStd x = 0 := by rwa [mul_comm]
      simp [calculateCorrelation, h, h']
    · have h' : ¬ seriesStd y * seriesStd x = 0 := by rwa [mul_comm]
      simp only [calculateCorrelation, if_neg h, if_neg h']
      rw [hcov, mul_comm (seriesStd x) (seriesStd y)]
  · intro hx hy
    have hy_len : 0 < y.length := by rw [hlen]; exact hn
    have hSy_pos' := sumsq_pos_of_not_constant y hy_len hy
    rw [hlen] at hSy_pos'
    set n : ℝ := (x.length : ℝ) with hndef
    have hnpos : (0 : ℝ) < n := by rw [hndef]; exact_mod_cast hn
    set Sx := ∑ i ∈ Finset.range x.length, (x.getD i 0 - seriesMean x) ^ 2 with hSx
    set Sy := ∑ i ∈ Finset.range x.length, (y.getD i 0 - seriesMean y) ^ 2 with hSy
    set Sxy := ∑ i ∈ Finset.range x.length,
        (x.getD i 0 - seriesMean x) * (y.getD i 0 - seriesMean y) with hSxy
    have hSx_pos : 0 < Sx := sumsq_pos_of_not_constant x hn hx
    have hSy_pos : 0 < Sy := hSy_pos'
    have hstdx : seriesStd x = Real.sqrt Sx / Real.sqrt n := by
      unfold seriesStd
      rw [Real.sqrt_div hSx_pos.le]
    have hstdy : seriesStd y = Real.sqrt Sy / Real.sqrt n := by
      unfold seriesStd
      rw [hlen, Real.sqrt_div hSy_pos.le]
    have hD : seriesStd x * seriesStd y = Real.sqrt Sx * Real.sqrt Sy / n := by
      rw [hstdx, hstdy, div_mul_div_comm, Real.mul_self_sqrt hnpos.le]
    have hD_pos : 0 < seriesStd x * seriesStd y := by
      rw [hD]
      have h1 : 0 < Real.sqrt Sx := Real.sqrt_pos.mpr hSx_pos
      have h2 : 0 < Real.sqrt Sy := Real.sqrt_pos.mpr hSy_pos
      positivity
    have hcovx : seriesCov x y = Sxy / n := by
      unfold seriesCov
      rw [hSxy, hndef]
    have hcs : Sxy ^ 2 ≤ Sx * Sy := by
      rw [hSxy, hSx, hSy]
      exact Finset.sum_mul_sq_le_sq_mul_sq (Finset.range x.length)
        (fun i => x.getD i 0 - seriesMean x) (fun i => y.getD i 0 - seriesMean y)
    have habs : |Sxy| ≤ Real.sqrt Sx * Real.sqrt Sy := by
      rw [← Real.sqrt_sq_eq_abs, ← Real.sqrt_mul hSx_pos.le]
      exact Real.sqrt_le_sqrt hcs
    have hval : |seriesCov x y / (seriesStd x * seriesStd y)| ≤ 1 := by
      rw [abs_div, abs_of_pos hD_pos, div_le_one hD_pos, hcovx, hD, abs_div,
        abs_of_pos hnpos]
      exact (div_le_div_iff_of_pos_right hnpos).mpr habs
    refine ⟨seriesCov x y / (seriesStd x * seriesStd y), ?_, ?_, ?_⟩
    · unfold calculateCorrelation
      rw [if_neg (ne_of_gt hD_pos)]
    · exact (abs_le.mp hval).1
    · exact (abs_le.mp hval).2

/-- Witness for C4 at `x = [0, 1]`, `y = [1, 3]`. -/
theorem calculateCorrelation_spec_witness :
    calculateCorrelation [(0 : ℝ), 1] [(1 : ℝ), 3] =
        calculateCorrelation [(1 : ℝ), 3] [(0 : ℝ), 1] ∧
      ∃ c, calculateCorrelation [(0 : ℝ), 1] [(1 : ℝ), 3] = some c ∧ -1 ≤ c ∧ c ≤ 1 := by
  have hx : ¬ constantSeries [(0 : ℝ), 1] := fun h => by
    simpa [List.getD] using h 1 (by decide)
  have hy : ¬ constantSeries [(1 : ℝ), 3] := fun h => by
    simpa [List.getD] using h 1 (by decide)
  have h := calculateCorrelation_spec [(0 : ℝ), 1] [(1 : ℝ), 3] rfl (by decide)
  exact ⟨h.1, h.2 hx hy⟩

/-- C5: when either series is constant (zero standard deviation) the
correlation produces the NaN sentinel (`none`); being a total function of
its inputs, the embedding in particular never raises. -/
theorem calculateCorrelation_degenerate (x y : List ℝ) :
    (0 < x.length → constantSeries x → calculateCorrelation x y = none) ∧
    (0 < y.length → constantSeries y → calculateCorrelation x y = none) := by
  constructor
  · intro hn hx
    unfold calculateCorrelation
    rw [if_pos (by rw [seriesStd_of_constant x hn hx, zero_mul])]
  · intro hn hy
    unfold calculateCorrelation
    rw [if_pos (by rw [seriesStd_of_constant y hn hy, mul_zero])]

/-- Witness for C5 at the constant series `[5, 5]` against `[1, 2]`. -/
theorem calculateCorrelation_degenerate_witness :
    calculateCorrelation [(5 : ℝ), 5] [(1 : ℝ), 2] = none :=
  (calculateCorrelation_degenerate [(5 : ℝ), 5] [(1 : ℝ), 2]).1 (by decide)
    (fun i hi => by
      have h2 : i < 2 := by simpa using hi
      interval_cases i <;> rfl)

/-! ## Dashboard summary buttons (SparklinesSummary.vue, dashboard variant)

The dashboard variant's `stats` computed property derives
`avgDuration` from the `track_duration_ms` field
(`durations.reduce((a,b) => a+b, 0) / durations.length / 1000 / 60`), and
`initChart` additionally computes a local variable
`avgDuration = stats.value.avgTrackPopularity * 3.5` that no button
reads: the `Avg Duration` button's displayed value is
`` `${stats.value.avgDuration}m` ``.  Values are modelled before their
`toFixed(1)` display formatting. -/

namespace Sparklines

/-- One parsed CSV row of the dashboard variant. -/
structure TrackData where
  track_popularity : ℚ
  artist_popularity : ℚ
  artist_followers : ℚ
  track_name : String
  artist_name : String
  track_duration_ms : ℚ
deriving DecidableEq

/-- `stats.avgTrackPopularity` (pre-formatting). -/
def avgTrackPopularity (data : List TrackData) : ℚ :=
  (data.map (·.track_popularity)).sum / data.length

/-- `stats.avgDuration`: mean duration converted from ms to minutes
(pre-formatting). -/
def avgDuration (data : List TrackData) : ℚ :=
  (data.map (·.track_duration_ms)).sum / data.length / 1000 / 60

/-- The local `avgDuration` variable of `initChart`
(`stats.value.avgTrackPopularity * 3.5`), which no button uses. -/
def initChartLocalAvgDuration (data : List TrackData) : ℚ :=
  avgTrackPopularity data * 3.5

/-- The `Avg Duration` entry of the `buttons` array built in `initChart`:
label and displayed numeric value (`stats.value.avgDuration`). -/
def avgDurationButton (data : List TrackData) : String × ℚ :=
  ("Avg Duration", avgDuration data)

/-- C8 counterexample: for one record with popularity 50 and duration
180000 ms the button shows 3 (minutes, from the duration data) while
`avgTrackPopularity * 3.5` would be 175 — the displayed value is not
computed from the popularity estimate. -/
theorem avgDurationButton_counterexample :
    (avgDurationButton [⟨50, 60, 1, "t", "a", 180000⟩]).2 = 3 ∧
    initChartLocalAvgDuration [⟨50, 60, 1, "t", "a", 180000⟩] = 175 ∧
    ¬ (avgDurationButton [⟨50, 60, 1, "t", "a", 180000⟩]).2 =
        initChartLocalAvgDuration [⟨50, 60, 1, "t", "a", 180000⟩] := by
  refine ⟨?_, ?_, ?_⟩ <;>
    norm_num [avgDurationButton, avgDuration, initChartLocalAvgDuration, avgTrackPopularity]

/-- C8 (amended): the `Avg Duration` button's value is computed from the
actual `track_duration_ms` data — it depends only on the duration column
and equals mean duration in minutes — while the `avgTrackPopularity * 3.5`
estimate is assigned to an unused local variable. -/
theorem avgDurationButton_from_duration (data data' : List TrackData)
    (h : data.map (·.track_duration_ms) = data'.map (·.track_duration_ms)) :
    (avgDurationButton data).2 = (avgDurationButton data').2 ∧
    (avgDurationButton data).2 =
      (data.map (·.track_duration_ms)).sum / data.length / 1000 / 60 := by
  have hlen : data.length = data'.length := by
    simpa using congrArg List.length h
  constructor
  · simp only [avgDurationButton, avgDuration, h, hlen]
  · rfl

/-- Witness for the amended C8: two single-record inputs with different
popularities but the same duration produce the same button value. -/
theorem avgDurationButton_from_duration_witness :
    (avgDurationButton [⟨10, 0, 0, "", "", 60000⟩]).2 =
        (avgDurationButton [⟨99, 5, 1, "z", "w", 60000⟩]).2 ∧
      (avgDurationButton [⟨10, 0, 0, "", "", 60000⟩]).2 =
        (([⟨10, 0, 0, "", "", 60000⟩] : List TrackData).map
            (·.track_duration_ms)).sum / 1 / 1000 / 60 :=
  avgDurationButton_from_duration [⟨10, 0, 0, "", "", 60000⟩]
    [⟨99, 5, 1, "z", "w", 60000⟩] rfl

end Sparklines

/-! ## Render boundary guard (top-artists bar chart)

The component keeps reactive `data` (loaded records) and `size` (viewport)
refs; a `watch` on `[data, size]` runs
`if (!isEmpty(dataVal) && sizeVal.width > 0 && sizeVal.height > 0) initChart()`.
The reactive system is modelled as a state machine driven by a sequence of
data-change and resize events; `initChart` reads only the current data and
size and replaces the prior rendering, so a render call is recorded as its
`(data, size)` snapshot in `rendered`. -/

/-- `ComponentSize` from `types.ts` (`clientWidth`/`clientHeight` are
non-negative integers). -/
structure ComponentSize where
  width : ℕ
  height : ℕ
deriving DecidableEq

/-- One reactive trigger: `data.value = ...` in `loadData`, or
`size.value = ...` in `onResize`. -/
inductive VizEvent where
  | dataChange (rows : List ArtistData)
  | resize (w h : ℕ)
deriving DecidableEq

/-- The component's reactive state, with `rendered` holding the snapshot
drawn by the last `initChart` call (`none` before any call). -/
structure VizState where
  data : List ArtistData
  size : ComponentSize
  rendered : Option (List ArtistData × ComponentSize)
deriving DecidableEq

/-- The ref update performed by an event. -/
def applyEvent (s : VizState) : VizEvent → VizState
  | VizEvent.dataChange rows => { s with data := rows }
  | VizEvent.resize w h => { s with size := ⟨w, h⟩ }

/-- The `watch` callback after one event: `initChart` runs exactly when
`!isEmpty(dataVal) && sizeVal.width > 0 && sizeVal.height > 0`; the call is
reported as `some` snapshot, a skipped run as `none`. -/
def watchStep (s : VizState) (e : VizEvent) :
    VizState × Option (List ArtistData × ComponentSize) :=
  if ¬ (applyEvent s e).data = [] ∧ 0 < (applyEvent s e).size.width ∧
      0 < (applyEvent s e).size.height then
    ({ applyEvent s e with rendered := some ((applyEvent s e).data, (applyEvent s e).size) },
      some ((applyEvent s e).data, (applyEvent s e).size))
  else (applyEvent s e, none)

/-- Running a whole event sequence, collecting every `initChart` call. -/
def runEvents (s : VizState) :
    List VizEvent → VizState × List (List ArtistData × ComponentSize)
  | [] => (s, [])
  | e :: rest =>
    ((runEvents (watchStep s e).1 rest).1,
      (watchStep s e).2.toList ++ (runEvents (watchStep s e).1 rest).2)

/-- The state on mount: no data, unmeasured `{width: 0, height: 0}`
viewport, nothing rendered. -/
def initialVizState : VizState := ⟨[], ⟨0, 0⟩, none⟩

/-- C9: over every event sequence, `initChart` is only ever invoked with
non-empty data and strictly positive width and height; an event whose
guard fails leaves the prior render output untouched; and a resize to
`{0, 0}` before any data load performs no render call and leaves nothing
rendered (the step function is total, so no event sequence throws). -/
theorem render_guard (s : VizState) (es : List VizEvent) :
    (∀ c ∈ (runEvents s es).2, ¬ c.1 = [] ∧ 0 < c.2.width ∧ 0 < c.2.height) ∧
    (∀ e, (watchStep s e).2 = none → (watchStep s e).1.rendered = s.rendered) ∧
    (runEvents initialVizState [VizEvent.resize 0 0]).2 = [] ∧
    (runEvents initialVizState [VizEvent.resize 0 0]).1.rendered = none := by
  refine ⟨?_, ?_, rfl, rfl⟩
  · induction es generalizing s with
    | nil => intro c hc; simp [runEvents] at hc
    | cons e rest ih =>
      intro c hc
      rw [runEvents] at hc
      rcases List.mem_append.mp hc with h1 | h2
      · unfold watchStep at h1
        by_cases hg : ¬ (applyEvent s e).data = [] ∧ 0 < (applyEvent s e).size.width ∧
            0 < (applyEvent s e).size.height
        · rw [if_pos hg] at h1
          simp only [Option.toList_some, List.mem_singleton] at h1
          subst h1
          exact hg
        · rw [if_neg hg] at h1
          simp at h1
      · exact ih _ _ h2
  · intro e
    unfold watchStep
    by_cases hg : ¬ (applyEvent s e).data = [] ∧ 0 < (applyEvent s e).size.width ∧
        0 < (applyEvent s e).size.height
    · rw [if_pos hg]
      intro hc
      simp at hc
    · rw [if_neg hg]
      intro _
      cases e <;> rfl

/-- Witness for C9: after a measuring resize and a data load, the single
recorded `initChart` call has non-empty data and a positive viewport. -/
theorem render_guard_witness :
    ¬ (([⟨"A", 1, 20, 0⟩] : List ArtistData), (⟨300, 200⟩ : ComponentSize)).1 = [] ∧
    0 < (([⟨"A", 1, 20, 0⟩] : List ArtistData), (⟨300, 200⟩ : ComponentSize)).2.width ∧
    0 < (([⟨"A", 1, 20, 0⟩] : List ArtistData), (⟨300, 200⟩ : ComponentSize)).2.height :=
  (render_guard initialVizState
      [VizEvent.resize 300 200, VizEvent.dataChange [⟨"A", 1, 20, 0⟩]]).1
    ([⟨"A", 1, 20, 0⟩], ⟨300, 200⟩) (by decide)

/-! ## Sankey flow aggregation (SankeyDiagram.vue, `prepareSankeyData`)

`prepareSankeyData` filters the loaded records by the selected artist
(`null`/empty selection keeps everything), counts co-occurrences of
(artist bucket, track bucket) in a JS `Map` keyed by the string
`` `${artistLevel}→${trackLevel}` `` — bijective with the pair, since the
three level labels never contain `→` — and emits one link per map entry,
with `source` from `artistMap = {Low: 0, Medium: 1, High: 2}` and `target`
from `trackMap = {Low: 3, Medium: 4, High: 5}` (the lookups are embedded
as total functions; only the three level strings ever occur as keys). -/

namespace Sankey

/-- One parsed CSV row of the Sankey component (post `loadData` filter). -/
structure TrackData where
  track_popularity : ℚ
  artist_popularity : ℚ
  artist_name : String
deriving DecidableEq

/-- `interface SankeyLink`. -/
structure SankeyLink where
  source : ℕ
  target : ℕ
  value : ℕ
deriving DecidableEq

/-- The `selectedArtist` filter (`none` models a null/empty selection). -/
def filterBySelectedArtist (data : List TrackData) (selectedArtist : Option String) :
    List TrackData :=
  match selectedArtist with
  | some a => data.filter (fun d => d.artist_name = a)
  | none => data

/-- One `linkMap.set(key, (linkMap.get(key) || 0) + 1)` update. -/
def bumpLink (m : List ((String × String) × ℕ)) (k : String × String) :
    List ((String × String) × ℕ) :=
  if m.any (fun p => p.1 = k) then
    m.map (fun p => if p.1 = k then (p.1, p.2 + 1) else p)
  else m ++ [(k, 1)]

/-- The `filteredData.forEach` pass building `linkMap`. -/
def buildLinkMap (data : List TrackData) : List ((String × String) × ℕ) :=
  data.foldl (fun m d =>
    bumpLink m (getPopularityLevel d.artist_popularity,
      getPopularityLevel d.track_popularity)) []

/-- `artistMap = {'Low': 0, 'Medium': 1, 'High': 2}` as a function. -/
def artistMap (level : String) : ℕ :=
  if level = "Low" then 0 else if level = "Medium" then 1 else 2

/-- `trackMap = {'Low': 3, 'Medium': 4, 'High': 5}` as a function. -/
def trackMap (level : String) : ℕ :=
  if level = "Low" then 3 else if level = "Medium" then 4 else 5

/-- The `linkMap.forEach` pass emitting the `links` array. -/
def prepareSankeyLinks (data : List TrackData) (selectedArtist : Option String) :
    List SankeyLink :=
  (buildLinkMap (filterBySelectedArtist data selectedArtist)).map
    (fun p => ⟨artistMap p.1.1, trackMap p.1.2, p.2⟩)

/-- The three bucket labels. -/
def levels : List String := ["Low", "Medium", "High"]

/-- Every pair of bucket labels. -/
def allLevelPairs : List (String × String) :=
  [("Low", "Low"), ("Low", "Medium"), ("Low", "High"),
   ("Medium", "Low"), ("Medium", "Medium"), ("Medium", "High"),
   ("High", "Low"), ("High", "Medium"), ("High", "High")]

/-- The total of the stored co-occurrence counts. -/
def sumLink (m : List ((String × String) × ℕ)) : ℕ :=
  (m.map (fun p => p.2)).sum

lemma getPopularityLevel_mem (q : ℚ) : getPopularityLevel q ∈ levels := by
  unfold getPopularityLevel levels
  split_ifs <;> simp

lemma keys_map_bumpLink (m : List ((String × String) × ℕ)) (k : String × String) :
    (m.map (fun p => if p.1 = k then (p.1, p.2 + 1) else p)).map (fun p => p.1) =
      m.map (fun p => p.1) := by
  induction m with
  | nil => rfl
  | cons p rest ih =>
    by_cases hp : p.1 = k <;> simp [hp, ih]

lemma keys_bumpLink_nodup (m : List ((String × String) × ℕ)) (k : String × String)
    (h : (m.map (fun p => p.1)).Nodup) :
    ((bumpLink m k).map (fun p => p.1)).Nodup := by
  unfold bumpLink
  by_cases hm : m.any (fun p => p.1 = k)
  · rw [if_pos hm, keys_map_bumpLink]
    exact h
  · rw [if_neg hm]
    have hk : k ∉ m.map (fun p => p.1) := by
      simp only [List.any_eq_true, decide_eq_true_eq] at hm
      simp only [List.mem_map]
      rintro ⟨p, hp, rfl⟩
      exact hm ⟨p, hp, rfl⟩
    simp [List.nodup_append, h, hk]

lemma values_bumpLink (m : List ((String × String) × ℕ)) (k : String × String)
    (h : ∀ p ∈ m, 1 ≤ p.2) :
    ∀ p ∈ bumpLink m k, 1 ≤ p.2 := by
  unfold bumpLink
  by_cases hm : m.any (fun p => p.1 = k)
  · rw [if_pos hm]
    intro p hp
    rcases List.mem_map.mp hp with ⟨p', hp', rfl⟩
    by_cases hk : p'.1 = k
    · simp [hk]
    · simp only [hk, if_false]
      exact h p' hp'
  · rw [if_neg hm]
    intro p hp
    rcases List.mem_append.mp hp with hp' | hp'
    · exact h p hp'
    · simp only [List.mem_singleton] at hp'
      subst hp'
      exact le_refl 1

lemma keys_bumpLink_mem (m : List ((String × String) × ℕ)) (k : String × String)
    (p : (String × String) × ℕ) (hp : p ∈ bumpLink m k) :
    p.1 ∈ m.map (fun p => p.1) ∨ p.1 = k := by
  unfold bumpLink at hp
  by_cases hm : m.any (fun p => p.1 = k)
  · rw [if_pos hm] at hp
    rcases List.mem_map.mp hp with ⟨p', hp', rfl⟩
    by_cases hk : p'.1 = k
    · simp [hk]
    · simp only [hk, if_false]
      exact Or.inl (List.mem_map_of_mem _ hp')
  · rw [if_neg hm] at hp
    rcases List.mem_append.mp hp with hp' | hp'
    · exact Or.inl (List.mem_map_of_mem _ hp')
    · simp only [List.mem_singleton] at hp'
      subst hp'
      exact Or.inr rfl

lemma sumLink_map_bump (m : List ((String × String) × ℕ)) (k : String × String) :
    sumLink (m.map (fun p => if p.1 = k then (p.1, p.2 + 1) else p)) =
      sumLink m + m.countP (fun p => p.1 = k) := by
  induction m with
  | nil => rfl
  | cons p rest ih =>
    by_cases hp : p.1 = k <;>
      simp [sumLink, List.countP_cons, hp] at ih ⊢ <;> omega

lemma countP_fst_le_one {κ β : Type} [DecidableEq κ] (m : List (κ × β)) (k : κ)
    (h : (m.map (fun p => p.1)).Nodup) :
    m.countP (fun p => p.1 = k) ≤ 1 := by
  induction m with
  | nil => simp
  | cons p rest ih =>
    simp only [List.map_cons, List.nodup_cons] at h
    by_cases hp : p.1 = k
    · have hzero : rest.countP (fun p => p.1 = k) = 0 := by
        rw [List.countP_eq_zero]
        intro p' hp'
        simp only [decide_eq_true_eq]
        intro hpk
        exact h.1 (by rw [← hp, ← hpk] at *; exact List.mem_map_of_mem (fun p => p.1) hp')
      rw [List.countP_cons]
      simp [hp, hzero]
    · rw [List.countP_cons, decide_eq_false hp]
      simpa using ih h.2

lemma sumLink_bumpLink (m : List ((String × String) × ℕ)) (k : String × String)
    (h : (m.map (fun p => p.1)).Nodup) :
    sumLink (bumpLink m k) = sumLink m + 1 := by
  unfold bumpLink
  by_cases hm : m.any (fun p => p.1 = k)
  · rw [if_pos hm, sumLink_map_bump]
    have hge : 1 ≤ m.countP (fun p => p.1 = k) := by
      simp only [List.any_eq_true, decide_eq_true_eq] at hm
      rcases hm with ⟨p, hp, hpk⟩
      exact List.countP_pos_iff.mpr ⟨p, hp, by simpa using hpk⟩
    have hle := countP_fst_le_one m k h
    omega
  · rw [if_neg hm]
    simp [sumLink]

end Sankey

namespace Sankey

/-- Invariant of the `linkMap` fold: distinct keys, positive counts, keys
made of bucket labels, and a total equal to the records processed. -/
lemma buildLinkMap_fold_inv (data : List TrackData) :
    ∀ m : List ((String × String) × ℕ),
      (m.map (fun p => p.1)).Nodup → (∀ p ∈ m, 1 ≤ p.2) →
      (∀ p ∈ m, p.1.1 ∈ levels ∧ p.1.2 ∈ levels) →
      (((data.foldl (fun m d =>
            bumpLink m (getPopularityLevel d.artist_popularity,
              getPopularityLevel d.track_popularity)) m).map (fun p => p.1)).Nodup ∧
        (∀ p ∈ data.foldl (fun m d =>
            bumpLink m (getPopularityLevel d.artist_popularity,
              getPopularityLevel d.track_popularity)) m, 1 ≤ p.2) ∧
        (∀ p ∈ data.foldl (fun m d =>
            bumpLink m (getPopularityLevel d.artist_popularity,
              getPopularityLevel d.track_popularity)) m,
          p.1.1 ∈ levels ∧ p.1.2 ∈ levels) ∧
        sumLink (data.foldl (fun m d =>
            bumpLink m (getPopularityLevel d.artist_popularity,
              getPopularityLevel d.track_popularity)) m) = sumLink m + data.length) := by
  induction data with
  | nil => intro m h1 h2 h3; exact ⟨h1, h2, h3, by simp⟩
  | cons d rest ih =>
    intro m h1 h2 h3
    rw [List.foldl_cons]
    have hk := And.intro (getPopularityLevel_mem d.artist_popularity)
      (getPopularityLevel_mem d.track_popularity)
    have h1' := keys_bumpLink_nodup m (getPopularityLevel d.artist_popularity,
      getPopularityLevel d.track_popularity) h1
    have h2' := values_bumpLink m (getPopularityLevel d.artist_popularity,
      getPopularityLevel d.track_popularity) h2
    have h3' : ∀ p ∈ bumpLink m (getPopularityLevel d.artist_popularity,
        getPopularityLevel d.track_popularity), p.1.1 ∈ levels ∧ p.1.2 ∈ levels := by
      intro p hp
      rcases keys_bumpLink_mem m _ p hp with hm | hkey
      · rcases List.mem_map.mp hm with ⟨p', hp', hfst⟩
        have := h3 p' hp'
        rw [← hfst]
        exact this
      · rw [hkey]
        exact hk
    have hsum := sumLink_bumpLink m (getPopularityLevel d.artist_popularity,
      getPopularityLevel d.track_popularity) h1
    obtain ⟨a1, a2, a3, a4⟩ := ih _ h1' h2' h3'
    refine ⟨a1, a2, a3, ?_⟩
    rw [a4, hsum]
    simp only [List.length_cons]
    omega

/-- The coordinate maps are injective on the bucket labels. -/
lemma levelMaps_inj (a b : String × String)
    (ha1 : a.1 ∈ levels) (ha2 : a.2 ∈ levels)
    (hb1 : b.1 ∈ levels) (hb2 : b.2 ∈ levels)
    (h : artistMap a.1 = artistMap b.1 ∧ trackMap a.2 = trackMap b.2) : a = b := by
  obtain ⟨a1, a2⟩ := a
  obtain ⟨b1, b2⟩ := b
  simp only [levels, List.mem_cons, List.mem_singleton, List.not_mem_nil, or_false] at *
  rcases ha1 with rfl | rfl | rfl <;> rcases ha2 with rfl | rfl | rfl <;>
    rcases hb1 with rfl | rfl | rfl <;> rcases hb2 with rfl | rfl | rfl <;>
    simp_all [artistMap, trackMap]

lemma artistMap_mem (s : String) (h : s ∈ levels) : artistMap s ∈ [0, 1, 2] := by
  simp only [levels, List.mem_cons, List.mem_singleton, List.not_mem_nil, or_false] at h
  rcases h with rfl | rfl | rfl <;> decide

lemma trackMap_mem (s : String) (h : s ∈ levels) : trackMap s ∈ [3, 4, 5] := by
  simp only [levels, List.mem_cons, List.mem_singleton, List.not_mem_nil, or_false] at h
  rcases h with rfl | rfl | rfl <;> decide

lemma mem_allLevelPairs (k : String × String) (h1 : k.1 ∈ levels) (h2 : k.2 ∈ levels) :
    k ∈ allLevelPairs := by
  obtain ⟨a, b⟩ := k
  simp only [levels, List.mem_cons, List.mem_singleton, List.not_mem_nil, or_false] at h1 h2
  rcases h1 with rfl | rfl | rfl <;> rcases h2 with rfl | rfl | rfl <;> decide

end Sankey

namespace Sankey

/-- The aggregated `linkMap` has distinct keys, positive counts,
bucket-label keys, and totals the records processed. -/
lemma buildLinkMap_inv (d : List TrackData) :
    ((buildLinkMap d).map (fun p => p.1)).Nodup ∧
    (∀ p ∈ buildLinkMap d, 1 ≤ p.2) ∧
    (∀ p ∈ buildLinkMap d, p.1.1 ∈ levels ∧ p.1.2 ∈ levels) ∧
    sumLink (buildLinkMap d) = d.length := by
  have h := buildLinkMap_fold_inv d [] (by simp) (by simp) (by simp)
  simpa [buildLinkMap, sumLink] using h

end Sankey

/-- C10: for every input and selection, the Sankey preparation emits at
most one link per (artist bucket, track bucket) pair — hence at most nine
links — each with value at least 1, source in `{0, 1, 2}`, target in
`{3, 4, 5}`, and the link values sum to the number of records
aggregated. -/
theorem prepareSankeyLinks_invariants (data : List Sankey.TrackData) (sel : Option String) :
    (Sankey.prepareSankeyLinks data sel).Pairwise
        (fun l1 l2 => ¬ (l1.source, l1.target) = (l2.source, l2.target)) ∧
    (Sankey.prepareSankeyLinks data sel).length ≤ 9 ∧
    (∀ l ∈ Sankey.prepareSankeyLinks data sel,
        1 ≤ l.value ∧ l.source ∈ [0, 1, 2] ∧ l.target ∈ [3, 4, 5]) ∧
    ((Sankey.prepareSankeyLinks data sel).map (fun l => l.value)).sum =
      (Sankey.filterBySelectedArtist data sel).length := by
  obtain ⟨hnodup, hpos, hlev, hsum⟩ :=
    Sankey.buildLinkMap_inv (Sankey.filterBySelectedArtist data sel)
  refine ⟨?_, ?_, ?_, ?_⟩
  · unfold Sankey.prepareSankeyLinks
    rw [List.pairwise_map]
    have hkeys : (Sankey.buildLinkMap (Sankey.filterBySelectedArtist data sel)).Pairwise
        (fun p q => ¬ p.1 = q.1) := List.pairwise_map.mp hnodup
    refine hkeys.imp_of_mem ?_
    intro a b ha hb hne heq
    apply hne
    simp only [Prod.mk.injEq] at heq
    exact Sankey.levelMaps_inj a.1 b.1 (hlev a ha).1 (hlev a ha).2
      (hlev b hb).1 (hlev b hb).2 heq
  · unfold Sankey.prepareSankeyLinks
    rw [List.length_map]
    have hsub : ∀ k ∈ (Sankey.buildLinkMap (Sankey.filterBySelectedArtist data sel)).map
        (fun p => p.1), k ∈ Sankey.allLevelPairs := by
      intro k hk
      rcases List.mem_map.mp hk with ⟨p, hp, rfl⟩
      exact Sankey.mem_allLevelPairs p.1 (hlev p hp).1 (hlev p hp).2
    calc (Sankey.buildLinkMap (Sankey.filterBySelectedArtist data sel)).length
        = ((Sankey.buildLinkMap (Sankey.filterBySelectedArtist data sel)).map
            (fun p => p.1)).length := (List.length_map _ _).symm
      _ = ((Sankey.buildLinkMap (Sankey.filterBySelectedArtist data sel)).map
            (fun p => p.1)).toFinset.card := (List.toFinset_card_of_nodup hnodup).symm
      _ ≤ Sankey.allLevelPairs.toFinset.card :=
          Finset.card_le_card
            (fun k hk => List.mem_toFinset.mpr (hsub k (List.mem_toFinset.mp hk)))
      _ ≤ Sankey.allLevelPairs.length := Sankey.allLevelPairs.toFinset_card_le
      _ = 9 := rfl
  · intro l hl
    unfold Sankey.prepareSankeyLinks at hl
    rcases List.mem_map.mp hl with ⟨p, hp, rfl⟩
    exact ⟨hpos p hp, Sankey.artistMap_mem p.1.1 (hlev p hp).1,
      Sankey.trackMap_mem p.1.2 (hlev p hp).2⟩
  · unfold Sankey.prepareSankeyLinks
    rw [List.map_map]
    exact hsum

/-- Witness for C10: one record with both popularities 80 yields the
single link `{source: 2, target: 5, value: 1}`, in range and positive. -/
theorem prepareSankeyLinks_invariants_witness :
    1 ≤ (⟨2, 5, 1⟩ : Sankey.SankeyLink).value ∧
      (⟨2, 5, 1⟩ : Sankey.SankeyLink).source ∈ [0, 1, 2] ∧
      (⟨2, 5, 1⟩ : Sankey.SankeyLink).target ∈ [3, 4, 5] :=
  (prepareSankeyLinks_invariants [⟨80, 80, "A"⟩] none).2.2.1 ⟨2, 5, 1⟩ (by decide)
